import Mathlib

/-!
Shallow embedding of the ezk SIP stack components referenced by the
specification: the dialog layer (`sip-ua/src/dialog/layer.rs`), the client
dialog builder (`sip-ua/src/dialog/client_builder.rs`), the INVITE session
(`sip-ua/src/invite/session.rs`), the datagram parser
(`sip-core/src/transport/parse.rs`), the stream keep-alive handling
(`sip-core/src/transport/streaming/mod.rs`) and the STUN ICE attribute
codecs (`stun-types/src/attributes/ice.rs`).

Machine integers (`u32`) are modelled as `Nat` with wrap-around made
explicit (`% 2 ^ 32`) at the `+ 1` sites of the source.
-/

namespace Ezk

/-- Request methods distinguished by the embedded code paths
(`Method::ACK`, `Method::INVITE`, `Method::BYE`); everything else is
collapsed into `other`. -/
inductive Method where
  | ack
  | invite
  | bye
  | other
deriving DecidableEq

/-- `IncomingRequest`, reduced to the fields the dialog layer inspects:
the request line's method and `base_headers.cseq.cseq`. -/
structure Req where
  method : Method
  cseq : Nat
deriving DecidableEq

/-- Successor on `u32` values: release-mode Rust `+ 1` wraps modulo `2^32`. -/
def u32succ (n : Nat) : Nat := (n + 1) % 2 ^ 32

namespace DialogLayer

/-- `DialogEntry` of `dialog/layer.rs`: the per-dialog backlog
(`BTreeMap<u32, IncomingRequest>` modelled as a key/value list), the
expected next peer CSeq and the registered usages (opaque handles;
delivery to usages is modelled separately). -/
structure DialogEntry where
  backlog : List (Nat × Req)
  next_peer_cseq : Option Nat
  usages : List Nat
deriving DecidableEq

/-- `DialogEntry::new(peer_cseq)`: `next_peer_cseq` is `peer_cseq.map(|c| c + 1)`,
backlog and usages start empty. -/
def DialogEntry.new (peer_cseq : Option Nat) : DialogEntry :=
  { backlog := [], next_peer_cseq := peer_cseq.map u32succ, usages := [] }

/-- Key lookup in the backlog map (`BTreeMap::remove` result part). -/
def lookupKey : List (Nat × Req) → Nat → Option Req
  | [], _ => none
  | (k, v) :: t, n => if k = n then some v else lookupKey t n

/-- Key removal from the backlog map (`BTreeMap::remove` mutation part). -/
def eraseKey (b : List (Nat × Req)) (n : Nat) : List (Nat × Req) :=
  b.filter (fun p => p.1 ≠ n)

/-- `BTreeMap::insert`: bind `k` to `v`, replacing any previous binding. -/
def insertKey (b : List (Nat × Req)) (k : Nat) (v : Req) : List (Nat × Req) :=
  (k, v) :: eraseKey b k

/-- The `for next_cseq in request_cseq..` drain loop of the `Ordering::Equal`
branch: starting at `n`, repeatedly `remove` the backlog entry at the current
key and step to the next key, stopping at the first absent key. The loop can
make at most `backlog.length` successful iterations, so fuel
`backlog.length + 1` is always sufficient. Returns the drained requests in
order together with the remaining backlog. -/
def drainAux : Nat → List (Nat × Req) → Nat → List Req × List (Nat × Req)
  | 0, b, _ => ([], b)
  | fuel + 1, b, n =>
    match lookupKey b n with
    | some m =>
      let r := drainAux fuel (eraseKey b n) (u32succ n)
      (m :: r.1, r.2)
    | none => ([], b)

/-- The drain loop at its always-sufficient fuel. -/
def drain (b : List (Nat × Req)) (n : Nat) : List Req × List (Nat × Req) :=
  drainAux (b.length + 1) b n

/-- Result of one `DialogLayer::receive` call on a matched entry: the
requests handed to the usages (in order), whether the lower-CSeq warning
fired, which `Ordering` branch ran, and the updated entry. -/
structure ReceiveOutput where
  delivered : List Req
  warned : Bool
  path : Ordering
  entry : DialogEntry
deriving DecidableEq

/-- Core of `DialogLayer::receive` (`dialog/layer.rs:59-122`) for a request
that matched an existing `DialogEntry`:
`next_peer_cseq.get_or_insert(request_cseq)` followed by the three-way
`request_cseq.cmp(next_peer_cseq)` match. In the `Equal` branch the
delivered list is the request followed by the drain starting at
`request_cseq`, and `next_peer_cseq` becomes the last delivered CSeq plus
one (`u32` wrap made explicit). -/
def receive (entry : DialogEntry) (req : Req) : ReceiveOutput :=
  let request_cseq := req.cseq
  let next := entry.next_peer_cseq.getD request_cseq
  if request_cseq < next then
    { delivered := [req]
      warned := req.method ≠ Method.ack
      path := .lt
      entry := { entry with next_peer_cseq := some next } }
  else if request_cseq = next then
    let d := drain entry.backlog request_cseq
    let requests := req :: d.1
    { delivered := requests
      warned := false
      path := .eq
      entry := { entry with
                  backlog := d.2
                  next_peer_cseq := some (u32succ (requests.getLastD req).cseq) } }
  else
    { delivered := []
      warned := false
      path := .gt
      entry := { entry with
                  backlog := insertKey entry.backlog request_cseq req
                  next_peer_cseq := some next } }

/-- Fold `receive` over a list of incoming requests, collecting the output
of each call. -/
def run (entry : DialogEntry) : List Req → List ReceiveOutput
  | [] => []
  | r :: rs =>
    let o := receive entry r
    o :: run o.entry rs

/-- All CSeq values delivered to the usages, in delivery order. -/
def deliveredCSeqs (outs : List ReceiveOutput) : List Nat :=
  outs.flatMap (fun o => o.delivered.map Req.cseq)

/-- CSeq values delivered through the `Ordering::Equal` (in-order) branch. -/
def inOrderCSeqs (outs : List ReceiveOutput) : List Nat :=
  outs.flatMap (fun o => if o.path = .eq then o.delivered.map Req.cseq else [])

/-- The delivery loop over the usage snapshot (`dialog/layer.rs:126-148`):
each usage's `receive` is reduced to whether it takes the request. The
request is offered to the usages in order; the loop stops at the first
taker. Returns how many usages were offered the request and the leftover
request (`none` when some usage took it). -/
def offerToUsages : List (Req → Bool) → Req → Nat × Option Req
  | [], req => (0, some req)
  | u :: us, req =>
    if u req then (1, none)
    else
      let r := offerToUsages us req
      (r.1 + 1, r.2)

/-- An outgoing response, reduced to its status code
(`endpoint.create_response(&request, StatusCode::NOT_FOUND, None)`). -/
structure OutgoingResponse where
  status : Nat
deriving DecidableEq

/-- What `handle_unwanted_request` does with a request no usage took:
nothing for ACK, `respond_failure` on a server INVITE transaction for
INVITE, `respond` on a plain server transaction otherwise. -/
inductive UnwantedAction where
  | noResponse
  | respondInvTsxFailure (resp : OutgoingResponse)
  | respondTsx (resp : OutgoingResponse)
deriving DecidableEq

/-- `DialogLayer::handle_unwanted_request` (`dialog/layer.rs:152-175`). -/
def handle_unwanted_request (req : Req) : UnwantedAction :=
  if req.method = Method.ack then
    .noResponse
  else
    let response : OutgoingResponse := ⟨404⟩
    if req.method = Method.invite then .respondInvTsxFailure response
    else .respondTsx response

theorem lookupKey_eq_none {b : List (Nat × Req)} {n : Nat}
    (h : ∀ p ∈ b, p.1 ≠ n) : lookupKey b n = none := by
  induction b with
  | nil => rfl
  | cons p t ih =>
    simp only [lookupKey]
    rw [if_neg (h p (List.mem_cons_self p t))]
    exact ih fun q hq => h q (List.mem_cons_of_mem p hq)

theorem mem_insertKey {b : List (Nat × Req)} {k : Nat} {v : Req} {p : Nat × Req}
    (h : p ∈ insertKey b k v) : p = (k, v) ∨ p ∈ b := by
  rcases List.mem_cons.1 h with h | h
  · exact Or.inl h
  · exact Or.inr (List.mem_of_mem_filter h)

theorem drain_of_lookup_none {b : List (Nat × Req)} {n : Nat}
    (h : lookupKey b n = none) : drain b n = ([], b) := by
  simp [drain, drainAux, h]

theorem receive_first_contact {e : DialogEntry} {r : Req}
    (h : e.next_peer_cseq = none)
    (hl : lookupKey e.backlog r.cseq = none) :
    receive e r =
      ⟨[r], false, .eq, { e with next_peer_cseq := some (u32succ r.cseq) }⟩ := by
  simp [receive, h, drain_of_lookup_none hl]

theorem receive_lt {e : DialogEntry} {r : Req} {n : Nat}
    (h : e.next_peer_cseq = some n) (hlt : r.cseq < n) :
    receive e r =
      ⟨[r], decide (r.method ≠ Method.ack), .lt,
        { e with next_peer_cseq := some n }⟩ := by
  simp [receive, h, hlt]

theorem receive_eq_of_lookup_none {e : DialogEntry} {r : Req} {n : Nat}
    (h : e.next_peer_cseq = some n) (heq : r.cseq = n)
    (hl : lookupKey e.backlog r.cseq = none) :
    receive e r =
      ⟨[r], false, .eq, { e with next_peer_cseq := some (u32succ r.cseq) }⟩ := by
  subst heq
  simp [receive, h, drain_of_lookup_none hl]

theorem receive_gt {e : DialogEntry} {r : Req} {n : Nat}
    (h : e.next_peer_cseq = some n) (hgt : n < r.cseq) :
    receive e r =
      ⟨[], false, .gt,
        { e with backlog := insertKey e.backlog r.cseq r
                 next_peer_cseq := some n }⟩ := by
  have h1 : ¬ r.cseq < n := Nat.not_lt.2 (Nat.le_of_lt hgt)
  have h2 : ¬ r.cseq = n := Nat.ne_of_gt hgt
  simp [receive, h, h1, h2]

/-- Core induction for the amended CSeq-ordering invariant: as long as no
CSeq value is received twice (`seen` collects past CSeqs, the backlog only
holds past CSeqs, and the incoming trace is duplicate-free and below the
`u32` wrap), the CSeq values delivered through the `Ordering::Equal` branch
increase by exactly one, and start at the expected `next_peer_cseq` when one
is set. -/
theorem inOrderCSeqs_chain_aux (reqs : List Req) :
    ∀ (seen : List Nat) (e : DialogEntry),
      (∀ p ∈ e.backlog, p.1 ∈ seen) →
      (∀ r ∈ reqs, r.cseq ∉ seen) →
      (reqs.map Req.cseq).Nodup →
      (∀ r ∈ reqs, r.cseq + 1 < 2 ^ 32) →
      List.Chain' (fun a b => b = a + 1) (inOrderCSeqs (run e reqs)) ∧
        (∀ n, e.next_peer_cseq = some n →
          ∀ h ∈ (inOrderCSeqs (run e reqs)).head?, h = n) := by
  induction reqs with
  | nil =>
    intro seen e _ _ _ _
    refine ⟨List.chain'_nil, ?_⟩
    intro n _ h hmem
    simp [run, inOrderCSeqs] at hmem
  | cons r rs ih =>
    intro seen e hb hseen hnd hlt
    have hrseen : r.cseq ∉ seen := hseen r (List.mem_cons_self r rs)
    have hlookup : lookupKey e.backlog r.cseq = none :=
      lookupKey_eq_none fun p hp => by
        intro hcontra
        exact hrseen (hcontra ▸ hb p hp)
    have hrsucc : u32succ r.cseq = r.cseq + 1 :=
      Nat.mod_eq_of_lt (hlt r (List.mem_cons_self r rs))
    have hndtail : (rs.map Req.cseq).Nodup := (List.nodup_cons.1 hnd).2
    have hrnot : r.cseq ∉ rs.map Req.cseq := (List.nodup_cons.1 hnd).1
    have hseentail : ∀ r' ∈ rs, r'.cseq ∉ (r.cseq :: seen) := by
      intro r' hr' hmem
      rcases List.mem_cons.1 hmem with hmem | hmem
      · exact hrnot (hmem ▸ List.mem_map_of_mem Req.cseq hr')
      · exact hseen r' (List.mem_cons_of_mem r hr') hmem
    have hlttail : ∀ r' ∈ rs, r'.cseq + 1 < 2 ^ 32 := fun r' hr' =>
      hlt r' (List.mem_cons_of_mem r hr')
    cases hnp : e.next_peer_cseq with
    | none =>
      have hrec := receive_first_contact hnp hlookup
      have hio : inOrderCSeqs (run e (r :: rs)) =
          r.cseq :: inOrderCSeqs
            (run { e with next_peer_cseq := some (u32succ r.cseq) } rs) := by
        simp [run, hrec, inOrderCSeqs]
      have hbtail : ∀ p ∈ ({ e with next_peer_cseq := some (u32succ r.cseq)} :
          DialogEntry).backlog, p.1 ∈ (r.cseq :: seen) := fun p hp =>
        List.mem_cons_of_mem _ (hb p hp)
      obtain ⟨hchain, hhead⟩ :=
        ih (r.cseq :: seen) _ hbtail hseentail hndtail hlttail
      constructor
      · rw [hio, List.chain'_cons']
        refine ⟨?_, hchain⟩
        intro y hy
        exact hhead (r.cseq + 1) (by simp [hrsucc]) y hy
      · intro n hn
        exact absurd hn (by simp)
    | some n =>
      rcases Nat.lt_trichotomy r.cseq n with hcmp | hcmp | hcmp
      · -- Less branch: delivered out of order, state unchanged
        have hrec := receive_lt hnp hcmp
        have hio : inOrderCSeqs (run e (r :: rs)) =
            inOrderCSeqs (run { e with next_peer_cseq := some n } rs) := by
          simp [run, hrec, inOrderCSeqs]
        have hbtail : ∀ p ∈ ({ e with next_peer_cseq := some n} :
            DialogEntry).backlog, p.1 ∈ (r.cseq :: seen) := fun p hp =>
          List.mem_cons_of_mem _ (hb p hp)
        obtain ⟨hchain, hhead⟩ :=
          ih (r.cseq :: seen) _ hbtail hseentail hndtail hlttail
        constructor
        · rw [hio]; exact hchain
        · intro n' hn' h hmem
          obtain rfl : n = n' := Option.some.inj hn'
          rw [hio] at hmem
          exact hhead n (by simp) h hmem
      · -- Equal branch: single in-order delivery, counter steps by one
        have hrec := receive_eq_of_lookup_none hnp hcmp hlookup
        have hio : inOrderCSeqs (run e (r :: rs)) =
            r.cseq :: inOrderCSeqs
              (run { e with next_peer_cseq := some (u32succ r.cseq) } rs) := by
          simp [run, hrec, inOrderCSeqs]
        have hbtail : ∀ p ∈ ({ e with next_peer_cseq := some (u32succ r.cseq)} :
            DialogEntry).backlog, p.1 ∈ (r.cseq :: seen) := fun p hp =>
          List.mem_cons_of_mem _ (hb p hp)
        obtain ⟨hchain, hhead⟩ :=
          ih (r.cseq :: seen) _ hbtail hseentail hndtail hlttail
        constructor
        · rw [hio, List.chain'_cons']
          refine ⟨?_, hchain⟩
          intro y hy
          exact hhead (r.cseq + 1) (by simp [hrsucc]) y hy
        · intro n' hn' h hmem
          obtain rfl : n = n' := Option.some.inj hn'
          rw [hio] at hmem
          simp only [List.head?_cons, Option.mem_def, Option.some.injEq] at hmem
          omega
      · -- Greater branch: request goes to the backlog, nothing delivered
        have hrec := receive_gt hnp hcmp
        have hio : inOrderCSeqs (run e (r :: rs)) =
            inOrderCSeqs (run { e with
              backlog := insertKey e.backlog r.cseq r
              next_peer_cseq := some n } rs) := by
          simp [run, hrec, inOrderCSeqs]
        have hbtail : ∀ p ∈ ({ e with
              backlog := insertKey e.backlog r.cseq r
              next_peer_cseq := some n} : DialogEntry).backlog,
            p.1 ∈ (r.cseq :: seen) := by
          intro p hp
          rcases mem_insertKey hp with hp | hp
          · simp [hp]
          · exact List.mem_cons_of_mem _ (hb p hp)
        obtain ⟨hchain, hhead⟩ :=
          ih (r.cseq :: seen) _ hbtail hseentail hndtail hlttail
        constructor
        · rw [hio]; exact hchain
        · intro n' hn' h hmem
          obtain rfl : n = n' := Option.some.inj hn'
          rw [hio] at hmem
          exact hhead n (by simp) h hmem

end DialogLayer

namespace ClientBuilder

/-- A parsed `Contact` header value, opaque to the builder logic. -/
structure Contact where
  uri : Nat
deriving DecidableEq

/-- `TsxResponse`, reduced to the headers `create_dialog_from_response`
inspects: `base_headers.to.tag` and the `Contact` header extraction
(`headers.get_named()`, `none` when the header is missing or invalid). -/
structure TsxResponse where
  to_tag : Option String
  contact : Option Contact
deriving DecidableEq

/-- Outcome of `ClientDialogBuilder::create_dialog_from_response`
(`dialog/client_builder.rs:71-98`): the `assert!` on the To tag panics,
header extraction failures travel the `Result` error channel, success
registers a `DialogEntry::new(None)` for the new dialog. -/
inductive CreateDialogResult where
  | panicNoToTag
  | headerError
  | ok (entry : DialogLayer.DialogEntry)
deriving DecidableEq

/-- `ClientDialogBuilder::create_dialog_from_response`:
`assert!(response.base_headers.to.tag.is_some())`, then build the dialog
(`peer_contact: response.headers.get_named()?` is the only fallible
extraction) and register `DialogEntry::new(None)` under the dialog key. -/
def create_dialog_from_response (resp : TsxResponse) : CreateDialogResult :=
  match resp.to_tag with
  | none => .panicNoToTag
  | some _ =>
    match resp.contact with
    | none => .headerError
    | some _ => .ok (DialogLayer.DialogEntry.new none)

end ClientBuilder

namespace Invite

/-- `CodeKind` of a response status, as matched by
`RefreshNeeded::process_default` (`Provisional`, `Success`, catch-all). -/
inductive CodeKind where
  | provisional
  | success
  | other
deriving DecidableEq

/-- A `TsxResponse` surfaced by the refresh INVITE client transaction,
reduced to the fields the loop reads: `line.code.kind()` and
`base_headers.cseq.cseq`. -/
structure RefreshResponse where
  kind : CodeKind
  cseq : Nat
deriving DecidableEq

/-- The in-dialog ACK request, identified by the CSeq it acknowledges. -/
structure AckRequest where
  cseq : Nat
deriving DecidableEq

/-- Modelled from the spec: `create_ack` lives in `invite/mod.rs`, which is
not among the provided sources; per the spec it builds the in-dialog ACK
for the 2xx carrying the given CSeq, and only its identity per CSeq matters
to the caching claim. -/
def create_ack (cseq : Nat) : AckRequest := ⟨cseq⟩

/-- The response loop of `RefreshNeeded::process_default`
(`invite/session.rs:43-81`): `let mut ack = None`; every `Success`
response sends the cached ACK, first building and caching one when the
cache is empty; `Provisional` and all other kinds send nothing. Returns
the ACK requests built and the ACK requests sent, each in order. -/
def processLoop : List RefreshResponse → Option AckRequest →
    List AckRequest × List AckRequest
  | [], _ => ([], [])
  | r :: rs, cache =>
    match r.kind with
    | .provisional => processLoop rs cache
    | .success =>
      match cache with
      | some a =>
        let p := processLoop rs (some a)
        (p.1, a :: p.2)
      | none =>
        let a := create_ack r.cseq
        let p := processLoop rs (some a)
        (a :: p.1, a :: p.2)
    | .other => processLoop rs cache

/-- `RefreshNeeded::process_default`, starting with an empty ACK cache. -/
def process_default (rs : List RefreshResponse) :
    List AckRequest × List AckRequest :=
  processLoop rs none

theorem processLoop_cached (rs : List RefreshResponse) (a : AckRequest) :
    processLoop rs (some a) =
      ([], List.replicate
        (rs.countP (fun r => r.kind == CodeKind.success)) a) := by
  induction rs with
  | nil => rfl
  | cons r t iht =>
    cases hk : r.kind with
    | provisional => simp [processLoop, hk, iht, List.countP_cons]
    | success =>
      simp [processLoop, hk, iht, List.countP_cons, List.replicate_succ]
    | other => simp [processLoop, hk, iht, List.countP_cons]

end Invite

namespace Session

/-- `Role` of the session (`Uac` or `Uas`). -/
inductive Role where
  | uac
  | uas
deriving DecidableEq

/-- `sip_types::header::typed::Refresher`. -/
inductive Refresher where
  | unspecified
  | uac
  | uas
deriving DecidableEq

/-- `UsageEvent` published by the session's dialog usage. -/
inductive UsageEvent where
  | reInvite (invite : Req)
  | bye (bye : Req)
deriving DecidableEq

/-- Which transaction `drive` created for the returned event. -/
inductive TsxCreated where
  | noTsx
  | server (request : Req)
  | serverInv (request : Req)
deriving DecidableEq

/-- The `Event` variant `drive` resolves to, with its request payload. -/
inductive EventKind where
  | refreshNeeded
  | reInviteReceived (invite : Req)
  | byeEvent (bye : Req)
  | terminated
deriving DecidableEq

/-- Observable outcome of one `Session::drive` resolution: the returned
event, whether `session_timer.reset()` ran, which server transaction was
created, and whether `terminate()` ran (state set to terminated and a BYE
sent through a client transaction). -/
structure DriveOutcome where
  event : EventKind
  timerReset : Bool
  tsx : TsxCreated
  byeSentViaTerminate : Bool
deriving DecidableEq

/-- `Session::handle_session_timer` (`invite/session.rs:212-230`): with
`Refresher::Unspecified` the source hits `unreachable!()` (modelled as
`none`); when the local role is the refresher the timer is reset and
`RefreshNeeded` returned; otherwise `terminate()` runs and `Terminated` is
returned. -/
def handle_session_timer (role : Role) (refresher : Refresher) :
    Option DriveOutcome :=
  match role, refresher with
  | _, .unspecified => none
  | .uac, .uac => some ⟨.refreshNeeded, true, .noTsx, false⟩
  | .uas, .uas => some ⟨.refreshNeeded, true, .noTsx, false⟩
  | .uac, .uas => some ⟨.terminated, false, .noTsx, true⟩
  | .uas, .uac => some ⟨.terminated, false, .noTsx, true⟩

/-- `Session::handle_usage_event` (`invite/session.rs:185-210`): a closed
channel yields `Terminated`; `Bye` creates a plain server transaction;
`ReInvite` resets the session timer and creates a server INVITE
transaction. -/
def handle_usage_event : Option UsageEvent → DriveOutcome
  | none => ⟨.terminated, false, .noTsx, false⟩
  | some (.bye r) => ⟨.byeEvent r, false, .server r, false⟩
  | some (.reInvite r) => ⟨.reInviteReceived r, true, .serverInv r, false⟩

/-- Which `select!` arm of `Session::drive` fired. -/
inductive DriveInput where
  | timerFired
  | usageEvent (event : Option UsageEvent)
deriving DecidableEq

/-- `Session::drive` (`invite/session.rs:153-160`): dispatch on the fired
arm. -/
def drive (role : Role) (refresher : Refresher) :
    DriveInput → Option DriveOutcome
  | .timerFired => handle_session_timer role refresher
  | .usageEvent e => some (handle_usage_event e)

/-- The refresher value corresponding to a local role, for stating "we are
the refresher for our role". -/
def refresherFor : Role → Refresher
  | .uac => .uac
  | .uas => .uas

end Session

namespace Parse

/-- `transport::parse::Error` (`Error::FailedToParse`). -/
inductive ParseError where
  | failedToParse
deriving DecidableEq

/-- `CompleteItem` of `transport/parse.rs`, with the STUN and SIP payloads
collapsed into `nonKeepAlive` (only the keep-alive items are inspected by
the embedded claims). -/
inductive CompleteItem where
  | keepAliveRequest
  | keepAliveResponse
  | nonKeepAlive (bytes : List Nat)
deriving DecidableEq

/-- Modelled from the spec: an input that is neither the double-CRLF nor
the single-CRLF sentinel goes on to STUN detection (`is_stun_message`,
defined in the stun-types crate root outside the provided sources) and SIP
parsing; the outcome is collapsed into `nonKeepAlive`. -/
def parse_non_keep_alive (bytes : List Nat) : Except ParseError CompleteItem :=
  .ok (.nonKeepAlive bytes)

/-- `parse_complete` (`transport/parse.rs:28-41`): the exact four bytes
`\r\n\r\n` are a keep-alive request, the exact two bytes `\r\n` a
keep-alive response; anything else continues into STUN/SIP parsing. -/
def parse_complete (bytes : List Nat) : Except ParseError CompleteItem :=
  if bytes = [13, 10, 13, 10] then .ok .keepAliveRequest
  else if bytes = [13, 10] then .ok .keepAliveResponse
  else parse_non_keep_alive bytes

/-- The keep-alive arms of the stream `receive_task` item match
(`streaming/mod.rs:340-361`): a keep-alive request is answered by writing
the two bytes `\r\n` back; a keep-alive response is discarded with no
reply; a decoded message produces no keep-alive reply. -/
def keep_alive_reply : CompleteItem → Option (List Nat)
  | .keepAliveRequest => some [13, 10]
  | .keepAliveResponse => none
  | .nonKeepAlive _ => none

/-- The body-length computation of `parse_complete_sip`
(`transport/parse.rs:103-123`), with the head already parsed (`head_end` is
`parser.head_end()`, `content_length` the successfully extracted
`Content-Length` header, `none` when absent or invalid): a zero
`Content-Length` gives the empty body; a positive one takes exactly that
many bytes after the head, failing (`none`, modelling
`Err(Error::FailedToParse)`) when the buffer holds fewer; with no
`Content-Length` the body is the remainder of the datagram after the head,
empty when the head ends at the buffer's end. -/
def sipBody (buffer : List Nat) (head_end : Nat)
    (content_length : Option Nat) : Option (List Nat) :=
  match content_length with
  | some len =>
    if len = 0 then some []
    else if head_end + len ≤ buffer.length then
      some ((buffer.drop head_end).take len)
    else none
  | none =>
    if head_end = buffer.length then some []
    else some (buffer.drop head_end)

end Parse

namespace Ice

/-- Big-endian (network order) byte encoding of `x` on `w` bytes, as
`put_u32`/`put_u64` produce. -/
def beBytes : Nat → Nat → List Nat
  | 0, _ => []
  | w + 1, x => beBytes w (x / 256) ++ [x % 256]

/-- Big-endian (network order) value of a byte list, as
`read_u32::<NE>`/`read_u64::<NE>` read it. -/
def beVal (l : List Nat) : Nat :=
  l.foldl (fun acc b => acc * 256 + b) 0

theorem beBytes_length (w x : Nat) : (beBytes w x).length = w := by
  induction w generalizing x with
  | zero => rfl
  | succ w ih => simp [beBytes, ih]

theorem beVal_beBytes (w : Nat) : ∀ x : Nat, x < 256 ^ w →
    beVal (beBytes w x) = x := by
  induction w with
  | zero =>
    intro x hx
    interval_cases x
    rfl
  | succ w ih =>
    intro x hx
    have hdiv : x / 256 < 256 ^ w := by
      rw [Nat.div_lt_iff_lt_mul (by norm_num : 0 < 256)]
      calc x < 256 ^ (w + 1) := hx
        _ = 256 ^ w * 256 := by ring
    have hval : beVal (beBytes w (x / 256) ++ [x % 256])
        = beVal (beBytes w (x / 256)) * 256 + x % 256 := by
      simp [beVal, List.foldl_append]
    calc beVal (beBytes (w + 1) x)
        = beVal (beBytes w (x / 256)) * 256 + x % 256 := hval
      _ = x / 256 * 256 + x % 256 := by rw [ih (x / 256) hdiv]
      _ = x := by omega

/-- `Priority::encode` (`attributes/ice.rs`): `put_u32(self.0)`, network
order. -/
def Priority.encode (x : Nat) : List Nat := beBytes 4 x

/-- `Priority::decode`: reject unless the attribute value is exactly 4
bytes, else `read_u32::<NE>`. Modelled from the spec for `NE`: the
stun-types crate root (outside the provided sources) fixes `NE` to network
byte order per RFC 5389, i.e. big-endian. -/
def Priority.decode (value : List Nat) : Except String Nat :=
  if value.length ≠ 4 then .error "priority value must be 4 bytes"
  else .ok (beVal value)

/-- `UseCandidate::encode`: writes nothing. -/
def UseCandidate.encode : List Nat := []

/-- `UseCandidate::decode`: always succeeds, ignoring the value. -/
def UseCandidate.decode (_value : List Nat) : Except String Unit := .ok ()

/-- `IceControlled::encode`: `put_u64(self.0)`, network order. -/
def IceControlled.encode (x : Nat) : List Nat := beBytes 8 x

/-- `IceControlled::decode`: reject unless the value is exactly 8 bytes,
else `read_u64::<NE>` (network order, see `Priority.decode`). -/
def IceControlled.decode (value : List Nat) : Except String Nat :=
  if value.length ≠ 8 then .error "ice-controlled value must be 8 bytes"
  else .ok (beVal value)

/-- `IceControlling::encode`: `put_u64(self.0)`, network order. -/
def IceControlling.encode (x : Nat) : List Nat := beBytes 8 x

/-- `IceControlling::decode`: reject unless the value is exactly 8 bytes,
else `read_u64::<NE>` (network order, see `Priority.decode`). -/
def IceControlling.decode (value : List Nat) : Except String Nat :=
  if value.length ≠ 8 then .error "ice-controlling value must be 8 bytes"
  else .ok (beVal value)

end Ice

end Ezk

open Ezk Ezk.DialogLayer

/-- C1: evaluation of `DialogLayer::receive` at the input refuting the
claimed backlog drain. With `next_peer_cseq = Some 6` and the backlog
holding the CSeq-7 request, an incoming CSeq-6 request runs the `Equal`
branch, but the drain loop starts at `request_cseq` itself (`for next_cseq
in request_cseq..`), finds no backlog entry at key 6 and breaks at once:
only the CSeq-6 request is delivered, the CSeq-7 request stays in the
backlog and `next_peer_cseq` becomes 7 — the claim requires delivery of
CSeq 6 then CSeq 7 with `next_peer_cseq = 8` and an empty backlog. -/
theorem C1_drain_starts_at_request_cseq :
    receive ⟨[(7, ⟨.bye, 7⟩)], some 6, []⟩ ⟨.bye, 6⟩ =
      { delivered := [⟨.bye, 6⟩]
        warned := false
        path := .eq
        entry := ⟨[(7, ⟨.bye, 7⟩)], some 7, []⟩ } := by
  decide

/-- C8 counterexample: the dialog layer does not reject CSeq `2^32 - 1`.
An incoming request with CSeq `2^32 - 1` on an entry expecting exactly that
value runs the `Equal` branch and the `next_peer_cseq` update is evaluated
on it, wrapping to `0` (`u32` release semantics; a debug build panics). -/
theorem C8_counterexample :
    receive ⟨[], some (2 ^ 32 - 1), []⟩ ⟨.bye, 2 ^ 32 - 1⟩ =
      { delivered := [⟨.bye, 2 ^ 32 - 1⟩]
        warned := false
        path := .eq
        entry := ⟨[], some 0, []⟩ } := by
  decide

/-- C8 amended: processing a request whose CSeq is `2^32 - 1` is not
rejected; when it matches the expected CSeq it is delivered and the
`next_peer_cseq` update is evaluated on it, wrapping the counter to `0`
modulo `2^32`. -/
theorem C8_amended_wraps_to_zero (entry : Ezk.DialogLayer.DialogEntry)
    (h : entry.next_peer_cseq = some (2 ^ 32 - 1))
    (hb : entry.backlog = []) (m : Ezk.Method) :
    (receive entry ⟨m, 2 ^ 32 - 1⟩).delivered = [⟨m, 2 ^ 32 - 1⟩] ∧
      (receive entry ⟨m, 2 ^ 32 - 1⟩).entry.next_peer_cseq = some 0 := by
  simp [receive, h, hb, drain, drainAux, lookupKey, u32succ]

/-- C2 counterexample: the delivered CSeq sequence is not strictly
increasing by one even though no ACK is involved. On an entry expecting
CSeq 5, receiving BYE 5 then BYE 3 delivers CSeqs `[5, 3]` (the Less branch
delivers the lower-CSeq non-ACK request anyway, merely logging a warning),
which violates the claimed invariant. -/
theorem C2_counterexample :
    deliveredCSeqs (run ⟨[], some 5, []⟩ [⟨.bye, 5⟩, ⟨.bye, 3⟩]) = [5, 3] ∧
      ¬ List.Chain' (fun a b => b = a + 1)
        (deliveredCSeqs (run ⟨[], some 5, []⟩ [⟨.bye, 5⟩, ⟨.bye, 3⟩])) := by
  have heq : deliveredCSeqs (run ⟨[], some 5, []⟩ [⟨.bye, 5⟩, ⟨.bye, 3⟩])
      = [5, 3] := by decide
  refine ⟨heq, ?_⟩
  intro hch
  rw [heq] at hch
  exact absurd (List.chain'_cons.mp hch).1 (by decide)

/-- C2 amended: provided no CSeq value reaches the dialog twice (the
transaction layer absorbs retransmissions) and no CSeq sits at the `u32`
wrap boundary, the CSeq values delivered through the in-order
(`Ordering::Equal`) branch increase by exactly one; requests arriving with
a CSeq lower than expected are additionally delivered out of order, with
the warning fired exactly when the method is not ACK. -/
theorem C2_amended_inorder_chain (reqs : List Req) (n0 : Option Nat)
    (us : List Nat)
    (hnd : (reqs.map Req.cseq).Nodup)
    (hlt : ∀ r ∈ reqs, r.cseq + 1 < 2 ^ 32) :
    List.Chain' (fun a b => b = a + 1)
      (inOrderCSeqs (run ⟨[], n0, us⟩ reqs)) ∧
    ∀ (e : DialogEntry) (r : Req) (n : Nat),
      e.next_peer_cseq = some n → r.cseq < n →
        (receive e r).delivered = [r] ∧
        ((receive e r).warned = true ↔ r.method ≠ Method.ack) := by
  refine ⟨(inOrderCSeqs_chain_aux reqs [] ⟨[], n0, us⟩ (by simp) (by simp)
    hnd hlt).1, ?_⟩
  intro e r n hn hltn
  rw [receive_lt hn hltn]
  simp

/-- Witness for `C2_amended_inorder_chain`: the S2-style trace receiving
CSeq 7 before CSeq 6 on a fresh entry. -/
theorem C2_amended_inorder_chain_witness :
    List.Chain' (fun a b => b = a + 1)
      (inOrderCSeqs (run ⟨[], some 6, []⟩ [⟨.bye, 7⟩, ⟨.bye, 6⟩])) :=
  (C2_amended_inorder_chain [⟨.bye, 7⟩, ⟨.bye, 6⟩] (some 6) []
    (by decide) (by decide)).1

/-- Witness for `C8_amended_wraps_to_zero` at a concrete entry. -/
theorem C8_amended_wraps_to_zero_witness :
    (receive ⟨[], some (2 ^ 32 - 1), []⟩ ⟨.bye, 2 ^ 32 - 1⟩).delivered
        = [⟨.bye, 2 ^ 32 - 1⟩] ∧
      (receive ⟨[], some (2 ^ 32 - 1), []⟩ ⟨.bye, 2 ^ 32 - 1⟩).entry.next_peer_cseq
        = some 0 :=
  C8_amended_wraps_to_zero ⟨[], some (2 ^ 32 - 1), []⟩ rfl rfl .bye

/-- C7: a delivered in-dialog request is offered to the usages in insertion
order up to and including the first usage that takes it (later usages are
not offered it) and is then consumed; when no usage takes it, every usage
was offered it and the leftover goes to `handle_unwanted_request`, which
silently drops ACK, answers INVITE with a 404 through a server INVITE
transaction's `respond_failure`, and answers every other method with a 404
through a plain server transaction's `respond`. -/
theorem C7_usage_delivery_and_unwanted :
    (∀ (pre : List (Req → Bool)) (u : Req → Bool) (post : List (Req → Bool))
        (req : Req), (∀ v ∈ pre, v req = false) → u req = true →
        offerToUsages (pre ++ u :: post) req = (pre.length + 1, none)) ∧
    (∀ (us : List (Req → Bool)) (req : Req), (∀ v ∈ us, v req = false) →
        offerToUsages us req = (us.length, some req)) ∧
    (∀ req : Req, req.method = Method.ack →
        handle_unwanted_request req = .noResponse) ∧
    (∀ req : Req, req.method = Method.invite →
        handle_unwanted_request req = .respondInvTsxFailure ⟨404⟩) ∧
    (∀ req : Req, req.method ≠ Method.ack → req.method ≠ Method.invite →
        handle_unwanted_request req = .respondTsx ⟨404⟩) := by
  refine ⟨?_, ?_, ?_, ?_, ?_⟩
  · intro pre u post req hpre hu
    induction pre with
    | nil => simp [offerToUsages, hu]
    | cons v t iht =>
      have hv : v req = false := hpre v (List.mem_cons_self v t)
      have ht := iht fun w hw => hpre w (List.mem_cons_of_mem v hw)
      simp [offerToUsages, hv, ht, Nat.add_comm, Nat.add_assoc]
  · intro us req hus
    induction us with
    | nil => rfl
    | cons v t iht =>
      have hv : v req = false := hus v (List.mem_cons_self v t)
      have ht := iht fun w hw => hus w (List.mem_cons_of_mem v hw)
      simp [offerToUsages, hv, ht]
  · intro req h
    simp [handle_unwanted_request, h]
  · intro req h
    have : req.method ≠ Method.ack := by rw [h]; intro hc; cases hc
    simp [handle_unwanted_request, h, this]
  · intro req h1 h2
    simp [handle_unwanted_request, h1, h2]

/-- Witness for `C7_usage_delivery_and_unwanted`: with a non-taking usage
followed by a taking one, both are offered the request and the second
consumes it. -/
theorem C7_usage_delivery_and_unwanted_witness :
    offerToUsages [fun _ => false, fun _ => true] ⟨.bye, 1⟩ = (2, none) :=
  C7_usage_delivery_and_unwanted.1 [fun _ => false] (fun _ => true) []
    ⟨.bye, 1⟩
    (fun v hv => by rw [List.mem_singleton] at hv; rw [hv])
    rfl

open Ezk.ClientBuilder

/-- C10: `create_dialog_from_response` panics (the `assert!`) exactly when
the response's To header has no tag; with a tag present, a missing Contact
header is the `Result` error; on success the registered entry is
`DialogEntry::new(None)`, whose `next_peer_cseq` is absent, so the first
in-dialog request from the peer runs the `Equal` branch, is delivered, and
sets `next_peer_cseq` to its CSeq plus one. -/
theorem C10_create_dialog_from_response (resp : TsxResponse) :
    (resp.to_tag = none → create_dialog_from_response resp = .panicNoToTag) ∧
    (∀ t, resp.to_tag = some t → resp.contact = none →
        create_dialog_from_response resp = .headerError) ∧
    (∀ t c, resp.to_tag = some t → resp.contact = some c →
        create_dialog_from_response resp = .ok (DialogEntry.new none) ∧
        (DialogEntry.new none).next_peer_cseq = none ∧
        ∀ r : Req,
          (receive (DialogEntry.new none) r).path = .eq ∧
          (receive (DialogEntry.new none) r).delivered = [r] ∧
          (receive (DialogEntry.new none) r).entry.next_peer_cseq
            = some (u32succ r.cseq)) := by
  refine ⟨?_, ?_, ?_⟩
  · intro h
    simp [create_dialog_from_response, h]
  · intro t ht hc
    simp [create_dialog_from_response, ht, hc]
  · intro t c ht hc
    refine ⟨by simp [create_dialog_from_response, ht, hc], rfl, ?_⟩
    intro r
    have h1 : (DialogEntry.new none).next_peer_cseq = none := rfl
    have h2 : lookupKey (DialogEntry.new none).backlog r.cseq = none := rfl
    rw [receive_first_contact h1 h2]
    exact ⟨rfl, rfl, rfl⟩

/-- Witness for `C10_create_dialog_from_response` at a concrete response
with a To tag and a Contact header. -/
theorem C10_create_dialog_from_response_witness :
    create_dialog_from_response ⟨some "tag", some ⟨0⟩⟩
      = .ok (DialogEntry.new none) :=
  ((C10_create_dialog_from_response ⟨some "tag", some ⟨0⟩⟩).2.2 "tag" ⟨0⟩
    rfl rfl).1

open Ezk.Invite

/-- C3: in `RefreshNeeded::process_default`, when every 2xx surfaced by the
refresh INVITE client transaction carries the same CSeq `c` (responses of
one transaction answer one request), exactly one ACK is built — `[create_ack c]`
when any 2xx arrives, none otherwise — and the sends are that single cached
ACK repeated once per 2xx, so retransmitted 2xx responses re-send the
cached ACK instead of producing a new one. -/
theorem C3_one_ack_per_2xx_cseq (rs : List RefreshResponse) (c : Nat)
    (h : ∀ r ∈ rs, r.kind = CodeKind.success → r.cseq = c) :
    (process_default rs).1 =
      (if rs.any (fun r => r.kind == CodeKind.success)
        then [create_ack c] else []) ∧
    (process_default rs).2 =
      List.replicate (rs.countP (fun r => r.kind == CodeKind.success))
        (create_ack c) := by
  induction rs with
  | nil => exact ⟨rfl, rfl⟩
  | cons r t iht =>
    have htail := iht fun r' hr' hk => h r' (List.mem_cons_of_mem r hr') hk
    cases hk : r.kind with
    | provisional =>
      simpa [process_default, processLoop, hk, List.countP_cons,
        List.any_cons] using htail
    | success =>
      have hc : r.cseq = c := h r (List.mem_cons_self r t) hk
      simp [process_default, processLoop, hk, hc, processLoop_cached,
        List.countP_cons, List.any_cons, List.replicate_succ]
    | other =>
      simpa [process_default, processLoop, hk, List.countP_cons,
        List.any_cons] using htail

/-- Witness for `C3_one_ack_per_2xx_cseq`: a provisional response followed
by a 2xx with CSeq 9 and two retransmissions of it builds one ACK and sends
it three times. -/
theorem C3_one_ack_per_2xx_cseq_witness :
    (process_default [⟨.provisional, 9⟩, ⟨.success, 9⟩, ⟨.success, 9⟩,
        ⟨.success, 9⟩]).1 =
      (if [(⟨.provisional, 9⟩ : RefreshResponse), ⟨.success, 9⟩,
          ⟨.success, 9⟩, ⟨.success, 9⟩].any
          (fun r => r.kind == CodeKind.success)
        then [create_ack 9] else []) ∧
    (process_default [⟨.provisional, 9⟩, ⟨.success, 9⟩, ⟨.success, 9⟩,
        ⟨.success, 9⟩]).2 =
      List.replicate
        ([(⟨.provisional, 9⟩ : RefreshResponse), ⟨.success, 9⟩,
          ⟨.success, 9⟩, ⟨.success, 9⟩].countP
          (fun r => r.kind == CodeKind.success))
        (create_ack 9) :=
  C3_one_ack_per_2xx_cseq
    [⟨.provisional, 9⟩, ⟨.success, 9⟩, ⟨.success, 9⟩, ⟨.success, 9⟩] 9
    (by decide)

open Ezk.Session

/-- C4: `Session::drive` — timer expiry with the local role being the
refresher resets the timer and yields `RefreshNeeded`; timer expiry with
the peer as refresher runs `terminate()` (BYE) and yields `Terminated`; a
`ReInvite` usage event resets the session timer, creates a server INVITE
transaction for the request and yields `ReInviteReceived`; a `Bye` usage
event creates a plain server transaction and yields `Bye`; a closed
usage-event channel yields `Terminated`. -/
theorem C4_drive_semantics (role : Role) (refresher : Refresher) :
    (refresher = refresherFor role →
      drive role refresher .timerFired
        = some ⟨.refreshNeeded, true, .noTsx, false⟩) ∧
    (refresher ≠ .unspecified → refresher ≠ refresherFor role →
      drive role refresher .timerFired
        = some ⟨.terminated, false, .noTsx, true⟩) ∧
    (∀ r, drive role refresher (.usageEvent (some (.reInvite r)))
        = some ⟨.reInviteReceived r, true, .serverInv r, false⟩) ∧
    (∀ r, drive role refresher (.usageEvent (some (.bye r)))
        = some ⟨.byeEvent r, false, .server r, false⟩) ∧
    drive role refresher (.usageEvent none)
      = some ⟨.terminated, false, .noTsx, false⟩ := by
  cases role <;> cases refresher <;>
    simp [drive, handle_session_timer, handle_usage_event, refresherFor]

/-- Witness for `C4_drive_semantics`: a UAC session whose peer (UAS) is the
refresher terminates with a BYE when the refresh timer fires. -/
theorem C4_drive_semantics_witness :
    drive Role.uac Refresher.uas .timerFired
      = some ⟨.terminated, false, .noTsx, true⟩ :=
  (C4_drive_semantics Role.uac Refresher.uas).2.1 (by decide) (by decide)

open Ezk.Parse

/-- C5: body framing of a complete datagram in `parse_complete_sip` — a
`Content-Length` of zero yields the empty body; a positive `Content-Length`
yields exactly that many bytes taken right after the head, and fewer
available body bytes than declared is a parse failure; with no
`Content-Length` the body is the datagram's remainder after the head,
empty exactly when the head ends at the datagram's end. -/
theorem C5_body_framing (buffer : List Nat) (head_end : Nat)
    (hhead : head_end ≤ buffer.length) :
    sipBody buffer head_end (some 0) = some [] ∧
    (∀ len, 0 < len → head_end + len ≤ buffer.length →
      sipBody buffer head_end (some len)
          = some ((buffer.drop head_end).take len) ∧
        ((buffer.drop head_end).take len).length = len) ∧
    (∀ len, buffer.length < head_end + len →
      sipBody buffer head_end (some len) = none) ∧
    sipBody buffer head_end none = some (buffer.drop head_end) ∧
    (head_end = buffer.length → sipBody buffer head_end none = some []) := by
  refine ⟨rfl, ?_, ?_, ?_, ?_⟩
  · intro len hpos hle
    constructor
    · simp [sipBody, Nat.pos_iff_ne_zero.mp hpos, hle]
    · rw [List.length_take, List.length_drop]
      omega
  · intro len hgt
    have hne : len ≠ 0 := by omega
    have : ¬ head_end + len ≤ buffer.length := by omega
    simp [sipBody, hne, this]
  · by_cases h : head_end = buffer.length
    · have : buffer.drop head_end = [] :=
        List.drop_eq_nil_of_le (le_of_eq h.symm)
      simp [sipBody, h, this]
    · simp [sipBody, h]
  · intro h
    simp [sipBody, h]

/-- Witness for `C5_body_framing`: a five-byte datagram whose head ends at
offset 2 and whose `Content-Length` is 3 yields exactly the last three
bytes as the body. -/
theorem C5_body_framing_witness :
    sipBody [1, 2, 3, 4, 5] 2 (some 3)
        = some (([1, 2, 3, 4, 5].drop 2).take 3) ∧
      (([1, 2, 3, 4, 5].drop 2).take 3).length = 3 :=
  (C5_body_framing [1, 2, 3, 4, 5] 2 (by decide)).2.1 3 (by decide)
    (by decide)

/-- C6: the exact four bytes `\r\n\r\n` parse to the keep-alive request
item and the exact two bytes `\r\n` to the keep-alive response item; on a
stream, the receive task answers a keep-alive request by writing a single
`\r\n` back and discards a keep-alive response without replying. -/
theorem C6_keep_alive_items :
    parse_complete [13, 10, 13, 10] = .ok .keepAliveRequest ∧
    parse_complete [13, 10] = .ok .keepAliveResponse ∧
    keep_alive_reply .keepAliveRequest = some [13, 10] ∧
    keep_alive_reply .keepAliveResponse = none := by
  exact ⟨rfl, rfl, rfl, rfl⟩

open Ezk.Ice

/-- C9: each of the four STUN ICE attribute codecs is a round trip —
`decode (encode x) = ok x` for every `u32` priority `x`, every `u64`
ICE-CONTROLLED and ICE-CONTROLLING tiebreaker `x`, and for the empty
USE-CANDIDATE attribute. -/
theorem C9_ice_attribute_roundtrip :
    (∀ x : Nat, x < 2 ^ 32 →
      Priority.decode (Priority.encode x) = .ok x) ∧
    (∀ x : Nat, x < 2 ^ 64 →
      IceControlled.decode (IceControlled.encode x) = .ok x) ∧
    (∀ x : Nat, x < 2 ^ 64 →
      IceControlling.decode (IceControlling.encode x) = .ok x) ∧
    UseCandidate.decode UseCandidate.encode = .ok () := by
  have h32 : (256 : Nat) ^ 4 = 2 ^ 32 := by norm_num
  have h64 : (256 : Nat) ^ 8 = 2 ^ 64 := by norm_num
  refine ⟨?_, ?_, ?_, rfl⟩
  · intro x hx
    rw [Priority.encode, Priority.decode, if_neg (by simp [beBytes_length])]
    rw [beVal_beBytes 4 x (h32 ▸ hx)]
  · intro x hx
    rw [IceControlled.encode, IceControlled.decode,
      if_neg (by simp [beBytes_length])]
    rw [beVal_beBytes 8 x (h64 ▸ hx)]
  · intro x hx
    rw [IceControlling.encode, IceControlling.decode,
      if_neg (by simp [beBytes_length])]
    rw [beVal_beBytes 8 x (h64 ▸ hx)]

/-- Witness for `C9_ice_attribute_roundtrip` at the priority value
`0x2112A442`. -/
theorem C9_ice_attribute_roundtrip_witness :
    Priority.decode (Priority.encode 0x2112A442) = .ok 0x2112A442 :=
  C9_ice_attribute_roundtrip.1 0x2112A442 (by norm_num)
